import Mathlib

/-! Shallow embedding of gmi2html.py, a gemtext-to-HTML converter built from
a line tokenizer, an AST builder that folds runs of same-kind tokens into
block nodes, and an HTML renderer. Text is modelled as lists of characters;
each entry of the input is one line as yielded by iterating the stream
(line terminators included, as in Python file iteration). -/

namespace Gmi2html

/-- Text is a list of characters. -/
abbrev Str := List Char

/-- ASCII whitespace, the character class matched by the regex class of
whitespace and stripped by str.strip (space, tab, newline, carriage return,
vertical tab, form feed). -/
def pyWs (c : Char) : Bool :=
  c = ' ' || c = '\t' || c = '\n' || c = '\r' || c = '\x0b' || c = '\x0c'

/-- Python str.strip with no argument: drop leading and trailing whitespace. -/
def strip (s : Str) : Str :=
  ((s.dropWhile pyWs).reverse.dropWhile pyWs).reverse

/-- The backtick character. -/
def tick : Char := '\x60'

/-- line.startswith of three backticks (gmi2html.py lines 78 and 89). -/
def startsWithTicks : Str → Bool
  | c1 :: c2 :: c3 :: _ => c1 = tick && c2 = tick && c3 = tick
  | _ => false

/-- The closed set of token kinds produced by tokenize. -/
inductive Tok where
  | header (level : Nat) (title : Str)
  | element (content : Str)
  | link (target : Str) (title : Str)
  | quote (content : Str)
  | p (content : Str)
  deriving DecidableEq, Repr

/-- header_regex (gmi2html.py line 9) matched against a line: one or more
number signs, then at least one whitespace, then the title (the rest of the
line after the maximal whitespace run). -/
def headerMatch (s : Str) : Option (Nat × Str) :=
  let k := (s.takeWhile (fun c => c = '#')).length
  if k = 0 then none
  else
    match s.drop k with
    | [] => none
    | c :: rest => if pyWs c then some (k, rest.dropWhile pyWs) else none

/-- element_regex (gmi2html.py line 10) matched against a line: a star, at
least one whitespace, then the content. -/
def elementMatch (s : Str) : Option Str :=
  match s with
  | a :: c :: rest => if a = '*' && pyWs c then some (rest.dropWhile pyWs) else none
  | _ => none

/-- link_regex (gmi2html.py line 11) matched against a stripped line: the
arrow, optional whitespace, a nonempty maximal run of non-whitespace as the
target, then an optional whitespace-separated title; the title group is
absent exactly when nothing follows the target. -/
def linkMatch (s : Str) : Option (Str × Str) :=
  match s with
  | a :: b :: rest =>
    if a = '=' && b = '>' then
      let afterWs := rest.dropWhile pyWs
      let target := afterWs.takeWhile (fun c => !pyWs c)
      if target = [] then none
      else some (target, (afterWs.drop target.length).dropWhile pyWs)
    else none
  | _ => none

/-- Outcome of one normal-mode line: a token, or the switch into quote mode. -/
inductive LineAct where
  | tok (t : Tok)
  | openQuote
  deriving DecidableEq, Repr

/-- Normal-mode classification of a stripped line in the source's priority
order (gmi2html.py lines 41-83): header, list element, link, opening fence,
paragraph fallback. The link token's title defaults to empty when the title
group is absent. -/
def classifyNormal (s : Str) : LineAct :=
  match headerMatch s with
  | some (k, title) => .tok (.header k title)
  | none =>
    match elementMatch s with
    | some c => .tok (.element c)
    | none =>
      match linkMatch s with
      | some (ta, ti) => .tok (.link ta ti)
      | none =>
        if startsWithTicks s then .openQuote
        else .tok (.p s)

/-- The message of the ValueError raised when input ends inside a quote
block (gmi2html.py line 98). -/
def unterminatedMsg : String := "Found a quote without end tag"

/-- tokenize (gmi2html.py lines 17-98). The first argument is the quote
state: none in normal mode, some buf while accumulating a verbatim buffer.
Normal lines are stripped then classified; in quote mode the raw line is
tested for a closing fence and otherwise appended untrimmed (terminator
included) to the buffer. Ending while in quote mode is the fatal error. -/
def tokenizeAux : Option Str → List Str → Except String (List Tok)
  | none, [] => .ok []
  | some _, [] => .error unterminatedMsg
  | none, line :: rest =>
    match classifyNormal (strip line) with
    | .openQuote => tokenizeAux (some []) rest
    | .tok t => (tokenizeAux none rest).map (fun ts => t :: ts)
  | some buf, line :: rest =>
    if startsWithTicks line then
      (tokenizeAux none rest).map (fun ts => Tok.quote buf :: ts)
    else
      tokenizeAux (some (buf ++ line)) rest

/-- Entry point of the tokenizer: start in normal mode. -/
def tokenize (lines : List Str) : Except String (List Tok) :=
  tokenizeAux none lines

/-- One entry of a links node: target and title of one link token. -/
structure LinkEntry where
  target : Str
  title : Str
  deriving DecidableEq, Repr

/-- The closed set of node kinds of the flat document tree. -/
inductive Node where
  | header (level : Nat) (title : Str)
  | p (content : Str)
  | links (entries : List LinkEntry)
  | list (elements : List Str)
  | quote (contents : List Str)
  deriving DecidableEq, Repr

/-- build_ast state: the document built so far and the three optional open
aggregators (gmi2html.py lines 106-109). -/
structure BState where
  root : List Node
  links_node : Option (List LinkEntry)
  list_node : Option (List Str)
  quote_node : Option (List Str)
  deriving DecidableEq, Repr

def isLinkTok : Tok → Bool
  | .link _ _ => true
  | _ => false

def isElementTok : Tok → Bool
  | .element _ => true
  | _ => false

def isQuoteTok : Tok → Bool
  | .quote _ => true
  | _ => false

/-- build_ast lines 112-114: a non-link token closes an open links node. -/
def closeLinks (s : BState) (t : Tok) : BState :=
  match s.links_node with
  | some l =>
    if isLinkTok t then s
    else { s with root := s.root ++ [Node.links l], links_node := none }
  | none => s

/-- build_ast lines 116-118: a non-element token closes an open list node. -/
def closeList (s : BState) (t : Tok) : BState :=
  match s.list_node with
  | some l =>
    if isElementTok t then s
    else { s with root := s.root ++ [Node.list l], list_node := none }
  | none => s

/-- build_ast lines 120-122: a non-quote token closes an open quote node. -/
def closeQuote (s : BState) (t : Tok) : BState :=
  match s.quote_node with
  | some l =>
    if isQuoteTok t then s
    else { s with root := s.root ++ [Node.quote l], quote_node := none }
  | none => s

/-- build_ast lines 124-170: after the closes, a header or paragraph token
is appended as a singleton node; a link, element or quote token extends the
matching aggregator, opening it first when absent. -/
def addTok (s : BState) (t : Tok) : BState :=
  match t with
  | .header lv ti => { s with root := s.root ++ [Node.header lv ti] }
  | .p c => { s with root := s.root ++ [Node.p c] }
  | .link ta ti =>
    match s.links_node with
    | none => { s with links_node := some [⟨ta, ti⟩] }
    | some l => { s with links_node := some (l ++ [⟨ta, ti⟩]) }
  | .element c =>
    match s.list_node with
    | none => { s with list_node := some [c] }
    | some l => { s with list_node := some (l ++ [c]) }
  | .quote c =>
    match s.quote_node with
    | none => { s with quote_node := some [c] }
    | some l => { s with quote_node := some (l ++ [c]) }

/-- One iteration of the build_ast loop: the three close checks in source
order, then the token dispatch. -/
def buildStep (s : BState) (t : Tok) : BState :=
  addTok (closeQuote (closeList (closeLinks s t) t) t) t

def initState : BState := ⟨[], none, none, none⟩

/-- The builder state after consuming a token list. -/
def buildState (ts : List Tok) : BState := ts.foldl buildStep initState

/-- build_ast lines 177-184: the end-of-stream flush of any still-open
aggregator, in source order links, list, quote. -/
def pendingNodes (s : BState) : List Node :=
  (match s.links_node with
   | some l => [Node.links l]
   | none => []) ++
  (match s.list_node with
   | some l => [Node.list l]
   | none => []) ++
  (match s.quote_node with
   | some l => [Node.quote l]
   | none => [])

/-- build_ast (gmi2html.py lines 105-186). -/
def build_ast (ts : List Tok) : List Node :=
  (buildState ts).root ++ pendingNodes (buildState ts)

/-- The fallback document title (gmi2html.py line 196). -/
def fallbackTitle : Str := "Page without title".toList

/-- Whether a node is a header of level exactly 1. -/
def isH1 : Node → Bool
  | .header lv _ => lv == 1
  | _ => false

/-- The title field of a header node. -/
def nodeHeaderTitle : Node → Str
  | .header _ ti => ti
  | _ => []

/-- Title search of write_html (gmi2html.py lines 190-196): the title of
the first header node of level 1, or the fallback. -/
def pageTitle : List Node → Str
  | [] => fallbackTitle
  | n :: rest => if isH1 n then nodeHeaderTitle n else pageTitle rest

/-- Decimal rendering of a level, as used by str.format. -/
def natStr (n : Nat) : Str := (Nat.repr n).toList

/-- Shorthand for literal text. -/
def lit (s : String) : Str := s.toList

/-- One list item of a links node (gmi2html.py lines 277-281). -/
def renderLink (e : LinkEntry) : Str :=
  lit "    <li><a href=\"" ++ e.target ++ lit "\">" ++ e.title ++ lit "</a></li>\n"

/-- The body fragment written for one node (gmi2html.py lines 263-302). -/
def renderNode : Node → Str
  | .header lv ti =>
    lit "  <h" ++ natStr lv ++ lit ">" ++ ti ++ lit "</h" ++ natStr lv ++ lit ">\n"
  | .p c => lit "  <p>" ++ c ++ lit "</p>\n"
  | .links es => lit "  <ul>\n" ++ (es.map renderLink).flatten ++ lit "  </ul>\n"
  | .list es =>
    lit "  <ul>\n" ++ (es.map (fun e => lit "    <li>" ++ e ++ lit "</li>\n")).flatten
      ++ lit "  </ul>\n"
  | .quote cs =>
    lit "  <pre>\n" ++ (cs.map (fun c => c ++ lit "\n")).flatten ++ lit "  </pre>\n"

/-- Skeleton text written before the title (gmi2html.py lines 198-204). -/
def htmlHead1 : Str :=
  lit "<!DOCTYPE html>\n<html lang=\"en\">\n  <head>\n   <meta charset=\"utf-8\">\n   <title>"

/-- Skeleton text right after the title. -/
def htmlHead2 : Str := lit "</title>\n"

/-- The fixed style sheet and head/body opening (gmi2html.py lines 206-262). -/
def htmlStyle : Str :=
  lit "  <style type=\"text/css\">\nhtml \x7b\n\tfont-family: sans-serif;\n\tfont-size:16px;\n\tline-height:1.6;\n\tcolor:#1E4147;\n\tbackground-color:#b3bccb;\n\x7d\n\nbody \x7b\n\tmax-width: 920px;\n\tmargin: 0 auto;\n\tpadding: 1rem 2rem;\n\x7d\n\nh1,h2,h3\x7b\n\tline-height:1.2;\n\x7d\n\nh1 \x7b\n\ttext-align: center;\n\tmargin-bottom: 1em;\n\x7d\n\nblockquote \x7b\n\tbackground-color: #eee;\n\tborder-left: 3px solid #444;\n\tmargin: 1rem -1rem 1rem calc(-1rem - 3px);\n\tpadding: 1rem;\n\x7d\n\nul \x7b\n\tmargin-left: 0;\n\tpadding: 0;\n\x7d\n\nli \x7b\n\tpadding: 0;\n\x7d\n\nli:not(:last-child) \x7b\n\tmargin-bottom: 0.5rem;\n\x7d\n\na \x7b\n\tposition: relative;\n\tcolor:#AA2E00;\n\x7d\n\na:visited \x7b\n\tcolor: #802200;\n\x7d\n   </style>\n </head>\n <body>\n"

/-- Closing skeleton text (gmi2html.py lines 304-309). -/
def htmlFoot : Str := lit " </body>\n</html>\n"

/-- The body: one fragment per node, in order. -/
def bodyHtml (ast : List Node) : Str := (ast.map renderNode).flatten

/-- write_html (gmi2html.py lines 189-309): title resolution, then the
fixed skeleton with the per-node fragments in between. -/
def write_html (ast : List Node) : Str :=
  htmlHead1 ++ pageTitle ast ++ htmlHead2 ++ htmlStyle ++ bodyHtml ast ++ htmlFoot

/-- gmi2html (gmi2html.py lines 312-315): tokenize, build the AST, render.
A tokenizer failure aborts the conversion with nothing written. -/
def gmi2html (lines : List Str) : Except String Str :=
  (tokenize lines).map (fun ts => write_html (build_ast ts))

/-- The five-line example input of the spec. -/
def exampleLines : List Str :=
  ["# My Page\n".toList, "Some text.\n".toList, "* one\n".toList,
   "* two\n".toList, "=> /about About page\n".toList]

/-- The node sequence the example must produce. -/
def exampleAst : List Node :=
  [Node.header 1 "My Page".toList,
   Node.p "Some text.".toList,
   Node.list ["one".toList, "two".toList],
   Node.links [⟨"/about".toList, "About page".toList⟩]]

/-! Helper lemmas about character runs, used to reason about the matchers. -/

/-- takeWhile of a list all of whose members satisfy the predicate. -/
theorem takeWhile_all (q : Char → Bool) :
    ∀ t : Str, (∀ c ∈ t, q c = true) → t.takeWhile q = t := by
  intro t
  induction t with
  | nil => intro _; rfl
  | cons c cs ih =>
    intro h
    have hc : q c = true := h c (List.mem_cons_self c cs)
    have ih' := ih fun x hx => h x (List.mem_cons_of_mem c hx)
    simp [List.takeWhile_cons, hc, ih']

/-- takeWhile stops exactly at the first failing character. -/
theorem takeWhile_append_stop (q : Char → Bool) (t : Str) (c : Char) (rest : Str)
    (ht : ∀ x ∈ t, q x = true) (hc : q c = false) :
    (t ++ c :: rest).takeWhile q = t := by
  induction t with
  | nil => simp [List.takeWhile_cons, hc]
  | cons a as ih =>
    have ha : q a = true := ht a (List.mem_cons_self a as)
    have ih' := ih fun x hx => ht x (List.mem_cons_of_mem a hx)
    simp [List.takeWhile_cons, ha, ih']

/-- dropWhile passes over a prefix all of whose members satisfy the predicate. -/
theorem dropWhile_all_append (p : Char → Bool) (w rest : Str)
    (hw : ∀ c ∈ w, p c = true) :
    (w ++ rest).dropWhile p = rest.dropWhile p := by
  induction w with
  | nil => rfl
  | cons c cs ih =>
    have hc : p c = true := hw c (List.mem_cons_self c cs)
    have ih' := ih fun x hx => hw x (List.mem_cons_of_mem c hx)
    simp [List.dropWhile_cons, hc, ih']

/-- dropWhile is the identity on a list whose head fails the predicate. -/
theorem dropWhile_cons_neg (p : Char → Bool) (c : Char) (rest : Str) (hc : p c = false) :
    (c :: rest).dropWhile p = c :: rest := by
  simp [List.dropWhile_cons, hc]

/-! The claims. -/

/-- C1: on the five-line example the pipeline yields the expected node
sequence (h1, paragraph, two-item list, single-entry links node, in that
order), the resolved title is My Page, and the full conversion emits the
skeleton with exactly those body fragments in order. -/
theorem c1_example_end_to_end :
    (tokenize exampleLines).map build_ast = .ok exampleAst ∧
    pageTitle exampleAst = "My Page".toList ∧
    gmi2html exampleLines = .ok (htmlHead1 ++ "My Page".toList ++ htmlHead2
      ++ htmlStyle
      ++ ("  <h1>My Page</h1>\n" ++ "  <p>Some text.</p>\n"
          ++ "  <ul>\n    <li>one</li>\n    <li>two</li>\n  </ul>\n"
          ++ "  <ul>\n    <li><a href=\"/about\">About page</a></li>\n  </ul>\n").toList
      ++ htmlFoot) :=
  ⟨rfl, rfl, rfl⟩

/-- The tokenizer mode after consuming the given lines from the given quote
state: none means normal mode, some buf means in-quote with buffer buf. -/
def finalMode : Option Str → List Str → Option Str
  | q, [] => q
  | none, line :: rest =>
    match classifyNormal (strip line) with
    | .openQuote => finalMode (some []) rest
    | .tok _ => finalMode none rest
  | some buf, line :: rest =>
    if startsWithTicks line then finalMode none rest
    else finalMode (some (buf ++ line)) rest

/-- A run that ends in quote mode produces the unterminated-block error. -/
theorem tokenizeAux_error_of_mode (ls : List Str) :
    ∀ q : Option Str, (finalMode q ls).isSome = true →
      tokenizeAux q ls = .error unterminatedMsg := by
  induction ls with
  | nil =>
    intro q h
    cases q with
    | none => simp [finalMode] at h
    | some b => rfl
  | cons line rest ih =>
    intro q h
    cases q with
    | none =>
      simp only [finalMode] at h
      simp only [tokenizeAux]
      cases hc : classifyNormal (strip line) with
      | tok t => rw [hc] at h; rw [ih none h]; rfl
      | openQuote => rw [hc] at h; exact ih (some []) h
    | some buf =>
      simp only [finalMode] at h
      simp only [tokenizeAux]
      by_cases hb : startsWithTicks line = true
      · rw [if_pos hb] at h ⊢; rw [ih none h]; rfl
      · rw [Bool.not_eq_true] at hb
        rw [hb] at h ⊢
        simp only [Bool.false_eq_true, if_false] at h ⊢
        exact ih (some (buf ++ line)) h

/-- C2: whenever the input ends while the tokenizer is still in in-quote
mode, tokenization fails with the unterminated-block error (no token list,
hence no partial quote token, is produced) and gmi2html propagates the
error, writing no output at all. -/
theorem c2_unterminated_block (lines : List Str)
    (h : (finalMode none lines).isSome = true) :
    tokenize lines = .error unterminatedMsg ∧
    gmi2html lines = .error unterminatedMsg := by
  have ht : tokenize lines = .error unterminatedMsg :=
    tokenizeAux_error_of_mode lines none h
  exact ⟨ht, by simp [gmi2html, ht, Except.map]⟩

/-- C2 witness: a lone opening fence ends in quote mode and fails. -/
theorem c2_witness :
    tokenize ["```\n".toList] = .error unterminatedMsg ∧
    gmi2html ["```\n".toList] = .error unterminatedMsg :=
  c2_unterminated_block _ (by decide)

/-- C3 counterexample: inside a quote block a fence line preceded by
whitespace does not close the block (the raw line fails the startswith
test); on the two-line input of an opening fence and an indented fence the
tokenizer raises the unterminated error instead of emitting the quote
token with the empty buffer that the claim predicts. -/
theorem c3_counterexample :
    tokenize ["```\n".toList, "   ```\n".toList] = .error unterminatedMsg ∧
    tokenize ["```\n".toList, "   ```\n".toList] ≠ .ok [Tok.quote []] := by
  constructor
  · rfl
  · intro h
    exact Except.noConfusion h

/-- C3 amended: in in-quote mode a raw line starting with three backticks
(no leading whitespace before them) closes the block — exactly one quote
token carrying the accumulated buffer is emitted, the mode returns to
normal and the buffer is discarded; any other line, including one whose
trimmed form starts with three backticks but which carries leading
whitespace, is appended to the buffer instead. -/
theorem c3_close_requires_flush_left_fence (buf line : Str) (rest : List Str) :
    (startsWithTicks line = true →
      tokenizeAux (some buf) (line :: rest)
        = (tokenizeAux none rest).map (fun ts => Tok.quote buf :: ts)) ∧
    (startsWithTicks line = false →
      tokenizeAux (some buf) (line :: rest)
        = tokenizeAux (some (buf ++ line)) rest) := by
  constructor <;> intro h <;> simp [tokenizeAux, h]

/-- C3 amended witness: a flush-left fence closes; an indented fence is
buffered verbatim. -/
theorem c3_witness :
    (tokenizeAux (some "x\n".toList) ["```\n".toList]
      = (tokenizeAux none []).map (fun ts => Tok.quote "x\n".toList :: ts)) ∧
    (tokenizeAux (some []) ["   ```\n".toList]
      = tokenizeAux (some "   ```\n".toList) []) :=
  ⟨(c3_close_requires_flush_left_fence "x\n".toList "```\n".toList []).1 (by decide),
   (c3_close_requires_flush_left_fence [] "   ```\n".toList []).2 (by decide)⟩

/-- The links nodes of a node sequence, in order, each as its entry list. -/
def linksNodesOf : List Node → List (List LinkEntry)
  | [] => []
  | Node.links es :: rest => es :: linksNodesOf rest
  | _ :: rest => linksNodesOf rest

theorem linksNodesOf_append (xs ys : List Node) :
    linksNodesOf (xs ++ ys) = linksNodesOf xs ++ linksNodesOf ys := by
  induction xs with
  | nil => rfl
  | cons x xs ih => cases x <;> simp [linksNodesOf, ih]

/-- The maximal runs of consecutive link tokens of a token stream, each as
its ordered list of target/title entries; the first argument is the run in
progress. -/
def linkRunsAux : Option (List LinkEntry) → List Tok → List (List LinkEntry)
  | none, [] => []
  | some r, [] => [r]
  | none, Tok.link a b :: ts => linkRunsAux (some [⟨a, b⟩]) ts
  | none, _ :: ts => linkRunsAux none ts
  | some r, Tok.link a b :: ts => linkRunsAux (some (r ++ [⟨a, b⟩])) ts
  | some r, _ :: ts => r :: linkRunsAux none ts

/-- The maximal runs of consecutive link tokens, in order. -/
def linkRuns (ts : List Tok) : List (List LinkEntry) := linkRunsAux none ts

/-- The links nodes produced by the builder from any starting state are the
links nodes already in the output plus one node per maximal link run of the
remaining tokens, the open links aggregator seeding the first run. -/
theorem linksNodesOf_foldl (ts : List Tok) :
    ∀ s : BState,
      linksNodesOf ((ts.foldl buildStep s).root ++ pendingNodes (ts.foldl buildStep s))
        = linksNodesOf s.root ++ linkRunsAux s.links_node ts := by
  induction ts with
  | nil =>
    intro s
    obtain ⟨r, ln, li, qn⟩ := s
    cases ln <;> cases li <;> cases qn <;>
      simp [pendingNodes, linksNodesOf_append, linksNodesOf, linkRunsAux]
  | cons t ts ih =>
    intro s
    rw [List.foldl_cons, ih (buildStep s t)]
    obtain ⟨r, ln, li, qn⟩ := s
    cases t <;> cases ln <;> cases li <;> cases qn <;>
      simp [buildStep, closeLinks, closeList, closeQuote, addTok,
        isLinkTok, isElementTok, isQuoteTok, linkRunsAux,
        linksNodesOf_append, linksNodesOf, List.append_assoc]

/-- C4: the links nodes of the built document, in order, are exactly the
maximal runs of consecutive link tokens of the stream, each carrying one
target/title entry per token in original order — so each maximal run yields
exactly one links node and a later run yields a new, separate node. -/
theorem c4_link_runs (ts : List Tok) :
    linksNodesOf (build_ast ts) = linkRuns ts := by
  have h := linksNodesOf_foldl ts initState
  simpa [build_ast, buildState, initState, linksNodesOf, linkRuns] using h

/-- C5: the resolved page title is the title of the first level-1 header
node, nodes of any other kind or level being skipped; it is the fixed
fallback when no such node exists; and write_html puts exactly this
resolved title into the document's title position. -/
theorem c5_title_resolution :
    (∀ ast : List Node, (∀ n ∈ ast, isH1 n = false) → pageTitle ast = fallbackTitle) ∧
    (∀ (pre : List Node) (ti : Str) (rest : List Node),
      (∀ n ∈ pre, isH1 n = false) →
      pageTitle (pre ++ Node.header 1 ti :: rest) = ti) ∧
    (∀ ast : List Node, write_html ast
      = htmlHead1 ++ pageTitle ast ++ htmlHead2 ++ htmlStyle ++ bodyHtml ast ++ htmlFoot) := by
  refine ⟨?_, ?_, fun _ => rfl⟩
  · intro ast h
    induction ast with
    | nil => rfl
    | cons n rest ih =>
      have hn := h n (List.mem_cons_self n rest)
      simp only [pageTitle, hn, Bool.false_eq_true, if_false]
      exact ih fun x hx => h x (List.mem_cons_of_mem n hx)
  · intro pre ti rest h
    induction pre with
    | nil => simp [pageTitle, isH1, nodeHeaderTitle]
    | cons n pre ih =>
      have hn := h n (List.mem_cons_self n pre)
      simp only [List.cons_append, pageTitle, hn, Bool.false_eq_true, if_false]
      exact ih fun x hx => h x (List.mem_cons_of_mem n hx)

/-- C5 witness: a document with no level-1 header gets the fallback title;
a level-2 header before the first level-1 header is skipped. -/
theorem c5_witness :
    pageTitle [Node.p "Just text".toList] = fallbackTitle ∧
    pageTitle [Node.header 2 "Sub".toList, Node.header 1 "Real".toList]
      = "Real".toList :=
  ⟨c5_title_resolution.1 [Node.p "Just text".toList] (by decide),
   c5_title_resolution.2.1 [Node.header 2 "Sub".toList] "Real".toList [] (by decide)⟩

/-- C6 counterexample: a line with no whitespace at all between the arrow
and the target is still classified as a link token — the whitespace after
the arrow is optional in link_regex — contradicting the claim that link
classification requires whitespace there. -/
theorem c6_counterexample :
    tokenize ["=>/about About page\n".toList]
      = .ok [Tok.link "/about".toList "About page".toList] := rfl

/-- link_regex applied behind the arrow: when the non-whitespace run after
the optional leading whitespace is the nonempty target and the remainder
trims to the title, the match yields that pair. -/
theorem linkMatch_arrow (rest ta rem : Str)
    (hta : (rest.dropWhile pyWs).takeWhile (fun c => !pyWs c) = ta)
    (h0 : ta ≠ [])
    (hrem : ((rest.dropWhile pyWs).drop ta.length).dropWhile pyWs = rem) :
    linkMatch ('=' :: '>' :: rest) = some (ta, rem) := by
  show (let afterWs := rest.dropWhile pyWs
        let target := afterWs.takeWhile (fun c => !pyWs c)
        if target = [] then none
        else some (target, (afterWs.drop target.length).dropWhile pyWs))
      = some (ta, rem)
  simp only [hta, hrem, if_neg h0]

/-- A line classifies as a link token when the header and element patterns
fail and the link pattern matches. -/
theorem classifyNormal_link (s ta ti : Str)
    (hh : headerMatch s = none) (he : elementMatch s = none)
    (hl : linkMatch s = some (ta, ti)) :
    classifyNormal s = .tok (.link ta ti) := by
  simp [classifyNormal, hh, he, hl]

/-- dropWhile never lengthens a list. -/
theorem length_dropWhile_le (p : Char → Bool) :
    ∀ l : Str, (l.dropWhile p).length ≤ l.length := by
  intro l
  induction l with
  | nil => simp
  | cons a l ih =>
    rw [List.dropWhile_cons]
    by_cases h : p a = true
    · rw [if_pos h]; simp; omega
    · rw [if_neg h]

/-- Dropping the length of the matched prefix is the same as dropWhile. -/
theorem drop_length_takeWhile (p : Char → Bool) :
    ∀ l : Str, l.drop (l.takeWhile p).length = l.dropWhile p := by
  intro l
  induction l with
  | nil => rfl
  | cons a l ih =>
    rw [List.takeWhile_cons, List.dropWhile_cons]
    by_cases h : p a = true
    · rw [if_pos h, if_pos h]
      simpa using ih
    · rw [if_neg h, if_neg h]
      rfl

/-- The head of a nonempty dropWhile result fails the predicate. -/
theorem dropWhile_head_neg (p : Char → Bool) :
    ∀ (l : Str) (x : Char) (xs : Str), l.dropWhile p = x :: xs → p x = false := by
  intro l
  induction l with
  | nil => intro x xs h; exact absurd h (by simp)
  | cons a l ih =>
    intro x xs h
    rw [List.dropWhile_cons] at h
    by_cases ha : p a = true
    · rw [if_pos ha] at h; exact ih x xs h
    · rw [if_neg ha] at h
      injection h with h1 _
      subst h1
      cases hpa : p a with
      | true => exact absurd hpa ha
      | false => rfl

/-- Members of a takeWhile prefix satisfy the predicate. -/
theorem mem_takeWhile_pred (p : Char → Bool) (l : Str) (x : Char)
    (hx : x ∈ l.takeWhile p) : p x = true :=
  List.mem_takeWhile_imp hx

/-- A dropWhile that keeps the full length keeps the whole list. -/
theorem dropWhile_eq_self_of_length (p : Char → Bool) (l : Str)
    (h : (l.dropWhile p).length = l.length) : l.dropWhile p = l := by
  have hsplit := List.takeWhile_append_dropWhile p l
  have hlen := congrArg List.length hsplit
  rw [List.length_append] at hlen
  have h0 : (l.takeWhile p).length = 0 := by omega
  rw [List.length_eq_zero.mp h0, List.nil_append] at hsplit
  exact hsplit

/-- A trimmed line has no leading whitespace on its reverse either: the
whitespace dropWhile leaves the reversed line untouched. -/
theorem reverse_dropWhile_of_strip (s : Str) (h : strip s = s) :
    s.reverse.dropWhile pyWs = s.reverse := by
  simp only [strip] at h
  have hlen : (((s.dropWhile pyWs).reverse.dropWhile pyWs).reverse).length = s.length := by
    rw [h]
  rw [List.length_reverse] at hlen
  have h1 : (s.dropWhile pyWs).length ≤ s.length := length_dropWhile_le pyWs s
  have h2 : ((s.dropWhile pyWs).reverse.dropWhile pyWs).length
      ≤ (s.dropWhile pyWs).length := by
    have := length_dropWhile_le pyWs (s.dropWhile pyWs).reverse
    rwa [List.length_reverse] at this
  have hu : (s.dropWhile pyWs).length = s.length := by omega
  have hu' : s.dropWhile pyWs = s := dropWhile_eq_self_of_length pyWs s hu
  rw [hu'] at h
  have := congrArg List.reverse h
  rwa [List.reverse_reverse] at this

/-- A nonempty all-whitespace suffix contradicts being a trimmed line. -/
theorem no_ws_suffix_of_stripped (pre rem : Str) (hne : rem ≠ [])
    (hall : ∀ c ∈ rem, pyWs c = true) (h : strip (pre ++ rem) = pre ++ rem) :
    False := by
  have hrev := reverse_dropWhile_of_strip _ h
  obtain ⟨x, xs, hx1, hx2⟩ : ∃ x xs, (pre ++ rem).reverse = x :: xs ∧ pyWs x = true := by
    cases hrr : rem.reverse with
    | nil => exact absurd (by simpa using congrArg List.reverse hrr) hne
    | cons x xs =>
      refine ⟨x, xs ++ pre.reverse, ?_, hall x ?_⟩
      · rw [List.reverse_append, hrr]; rfl
      · rw [← List.mem_reverse, hrr]; exact List.mem_cons_self x xs
  rw [hx1, List.dropWhile_cons, if_pos hx2] at hrev
  have hlen := congrArg List.length hrev
  have hle := length_dropWhile_le pyWs xs
  simp [List.length_cons] at hlen
  omega

/-- Forward direction of the amended C6 shape: every line of the stated
form classifies as a link token with that target and title. -/
theorem c6_forward (w t g ti : Str)
    (hw : ∀ c ∈ w, pyWs c = true)
    (ht0 : t ≠ []) (ht : ∀ c ∈ t, pyWs c = false)
    (hg0 : g ≠ []) (hg : ∀ c ∈ g, pyWs c = true)
    (hti : ∃ c cs, ti = c :: cs ∧ pyWs c = false) :
    classifyNormal ('=' :: '>' :: (w ++ t)) = .tok (.link t []) ∧
    classifyNormal ('=' :: '>' :: (w ++ (t ++ (g ++ ti)))) = .tok (.link t ti) := by
  obtain ⟨c, cs, rfl⟩ : ∃ c cs, t = c :: cs := by
    cases t with
    | nil => exact absurd rfl ht0
    | cons c cs => exact ⟨c, cs, rfl⟩
  have hc : pyWs c = false := ht c (List.mem_cons_self c cs)
  obtain ⟨d, ds, rfl⟩ : ∃ d ds, g = d :: ds := by
    cases g with
    | nil => exact absurd rfl hg0
    | cons d ds => exact ⟨d, ds, rfl⟩
  have hd : pyWs d = true := hg d (List.mem_cons_self d ds)
  obtain ⟨e, es, rfl, he⟩ := hti
  have hnws : ∀ x ∈ c :: cs, (!pyWs x) = true := fun x hx => by simp [ht x hx]
  constructor
  · have hafter : (w ++ (c :: cs)).dropWhile pyWs = c :: cs := by
      rw [dropWhile_all_append pyWs w _ hw, dropWhile_cons_neg pyWs c cs hc]
    have htake : (c :: cs).takeWhile (fun x => !pyWs x) = c :: cs :=
      takeWhile_all _ _ hnws
    simp [classifyNormal, headerMatch, elementMatch, linkMatch, hafter, htake,
      List.drop_length]
  · have hafter : (w ++ ((c :: cs) ++ ((d :: ds) ++ (e :: es)))).dropWhile pyWs
        = (c :: cs) ++ ((d :: ds) ++ (e :: es)) := by
      rw [dropWhile_all_append pyWs w _ hw]
      exact dropWhile_cons_neg pyWs c _ hc
    have htake : (((w ++ ((c :: cs) ++ ((d :: ds) ++ (e :: es)))).dropWhile pyWs).takeWhile
          (fun x => !pyWs x)) = c :: cs := by
      rw [hafter]
      exact takeWhile_append_stop _ _ d _ hnws (by simp [hd])
    have hrem : (((w ++ ((c :: cs) ++ ((d :: ds) ++ (e :: es)))).dropWhile pyWs).drop
          (c :: cs).length).dropWhile pyWs = e :: es := by
      rw [hafter]
      have hdl := List.drop_left (c :: cs) ((d :: ds) ++ (e :: es))
      rw [hdl, dropWhile_all_append pyWs _ _ hg, dropWhile_cons_neg pyWs e es he]
    have hlm : linkMatch ('=' :: '>' :: (w ++ ((c :: cs) ++ ((d :: ds) ++ (e :: es)))))
        = some (c :: cs, e :: es) :=
      linkMatch_arrow _ _ _ htake (by simp) hrem
    exact classifyNormal_link _ _ _ rfl rfl hlm

/-- Converse direction of the amended C6 shape: every trimmed line that
classifies as a link token decomposes into the arrow, optional leading
whitespace, the nonempty non-whitespace target, and either nothing (empty
title) or nonempty whitespace followed by the title starting with a
non-whitespace character. -/
theorem c6_converse (s ta ti : Str) (hstrip : strip s = s)
    (hcls : classifyNormal s = .tok (.link ta ti)) :
    ∃ w : Str, (∀ c ∈ w, pyWs c = true) ∧ ta ≠ [] ∧ (∀ c ∈ ta, pyWs c = false) ∧
      ((ti = [] ∧ s = '=' :: '>' :: (w ++ ta)) ∨
       (∃ g : Str, g ≠ [] ∧ (∀ c ∈ g, pyWs c = true) ∧
         (∃ e es, ti = e :: es ∧ pyWs e = false) ∧
         s = '=' :: '>' :: (w ++ (ta ++ (g ++ ti))))) := by
  have hl : linkMatch s = some (ta, ti) := by
    cases hh : headerMatch s with
    | some kv =>
      obtain ⟨k, v⟩ := kv
      simp [classifyNormal, hh] at hcls
    | none =>
      cases he : elementMatch s with
      | some cc => simp [classifyNormal, hh, he] at hcls
      | none =>
        cases hlm : linkMatch s with
        | some pr =>
          obtain ⟨ta2, ti2⟩ := pr
          simp only [classifyNormal, hh, he, hlm, LineAct.tok.injEq, Tok.link.injEq] at hcls
          rw [hcls.1, hcls.2]
        | none =>
          by_cases hb : startsWithTicks s = true <;>
            simp [classifyNormal, hh, he, hlm, hb] at hcls
  obtain ⟨a, b, rest, rfl⟩ : ∃ a b rest, s = a :: b :: rest := by
    cases s with
    | nil => simp [linkMatch] at hl
    | cons a s2 =>
      cases s2 with
      | nil => simp [linkMatch] at hl
      | cons b rest => exact ⟨a, b, rest, rfl⟩
  simp only [linkMatch] at hl
  split at hl
  · rename_i hab
    simp only [Bool.and_eq_true, decide_eq_true_eq] at hab
    obtain ⟨rfl, rfl⟩ := hab
    split at hl
    · exact absurd hl (by simp)
    · rename_i h0
      simp only [Option.some.injEq, Prod.mk.injEq] at hl
      obtain ⟨hta, hti⟩ := hl
      have hwall : ∀ c ∈ rest.takeWhile pyWs, pyWs c = true :=
        fun c hc => mem_takeWhile_pred pyWs rest c hc
      have hsplit1 : rest.takeWhile pyWs ++ rest.dropWhile pyWs = rest :=
        List.takeWhile_append_dropWhile pyWs rest
      have htane : ta ≠ [] := by rw [← hta]; exact h0
      have htaws : ∀ c ∈ ta, pyWs c = false := by
        intro c hc
        rw [← hta] at hc
        have := mem_takeWhile_pred _ _ c hc
        simpa using this
      have hti2 : ((rest.dropWhile pyWs).dropWhile (fun c => !pyWs c)).dropWhile pyWs
          = ti := by
        rw [← drop_length_takeWhile (fun c => !pyWs c) (rest.dropWhile pyWs)]
        exact hti
      have hsplit2 : ta ++ (rest.dropWhile pyWs).dropWhile (fun c => !pyWs c)
          = rest.dropWhile pyWs := by
        rw [← hta]
        exact List.takeWhile_append_dropWhile (fun c => !pyWs c) (rest.dropWhile pyWs)
      cases hremc : (rest.dropWhile pyWs).dropWhile (fun c => !pyWs c) with
      | nil =>
        refine ⟨rest.takeWhile pyWs, hwall, htane, htaws, Or.inl ⟨?_, ?_⟩⟩
        · rw [hremc] at hti2
          simpa using hti2.symm
        · have hsplit2n : ta = rest.dropWhile pyWs := by
            rw [hremc] at hsplit2
            simpa using hsplit2
          have hres : rest = rest.takeWhile pyWs ++ ta := by
            conv_lhs => rw [← hsplit1]
            rw [← hsplit2n]
          exact congrArg (fun l => '=' :: '>' :: l) hres
      | cons r rs =>
        have hrws : pyWs r = true := by
          have := dropWhile_head_neg (fun c => !pyWs c) (rest.dropWhile pyWs) r rs hremc
          simpa using this
        have hsplit2c : ta ++ (r :: rs) = rest.dropWhile pyWs := by
          rw [hremc] at hsplit2; exact hsplit2
        have hti3 : (r :: rs).dropWhile pyWs = ti := by
          rw [hremc] at hti2; exact hti2
        have hg0 : (r :: rs).takeWhile pyWs ≠ [] := by
          rw [List.takeWhile_cons, if_pos hrws]
          simp
        have hgall : ∀ c ∈ (r :: rs).takeWhile pyWs, pyWs c = true :=
          fun c hc => mem_takeWhile_pred pyWs (r :: rs) c hc
        have hgsplit : (r :: rs).takeWhile pyWs ++ ti = r :: rs := by
          rw [← hti3]
          exact List.takeWhile_append_dropWhile pyWs (r :: rs)
        have htine : ∃ e es, ti = e :: es ∧ pyWs e = false := by
          cases hticase : ti with
          | nil =>
            exfalso
            rw [hticase] at hti3
            have hall : ∀ c ∈ r :: rs, pyWs c = true := by
              intro c hc
              simpa using List.dropWhile_eq_nil_iff.mp hti3 c hc
            have hrest3 : rest = rest.takeWhile pyWs ++ (ta ++ (r :: rs)) := by
              rw [hsplit2c]; exact hsplit1.symm
            have hshape : ('=' :: '>' :: rest)
                = ('=' :: '>' :: (rest.takeWhile pyWs ++ ta)) ++ (r :: rs) := by
              rw [List.cons_append, List.cons_append, List.append_assoc]
              exact congrArg (fun l => '=' :: '>' :: l) hrest3
            exact no_ws_suffix_of_stripped _ _ (by simp) hall
              (by rw [← hshape]; exact hstrip)
          | cons e es =>
            refine ⟨e, es, rfl, ?_⟩
            rw [hticase] at hti3
            exact dropWhile_head_neg pyWs (r :: rs) e es hti3
        refine ⟨rest.takeWhile pyWs, hwall, htane, htaws,
          Or.inr ⟨(r :: rs).takeWhile pyWs, hg0, hgall, htine, ?_⟩⟩
        have hres : rest
            = rest.takeWhile pyWs ++ (ta ++ ((r :: rs).takeWhile pyWs ++ ti)) := by
          rw [hgsplit, hsplit2c]
          exact hsplit1.symm
        exact congrArg (fun l => '=' :: '>' :: l) hres
  · exact absurd hl (by simp)

/-- C6 amended: in normal mode, after the header and list patterns have
failed (automatic for a line beginning with the arrow), a trimmed line is
classified as a link token EXACTLY when it consists of the arrow, OPTIONAL
whitespace, a nonempty non-whitespace target, and optionally whitespace
followed by a free-text title: every such shape classifies as a link token
with that target and title (title empty when absent), and conversely every
trimmed line classified as a link token decomposes into exactly that shape
carrying the token's target and title. -/
theorem c6_link_classification :
    (∀ w t g ti : Str,
      (∀ c ∈ w, pyWs c = true) → t ≠ [] → (∀ c ∈ t, pyWs c = false) →
      g ≠ [] → (∀ c ∈ g, pyWs c = true) →
      (∃ c cs, ti = c :: cs ∧ pyWs c = false) →
      classifyNormal ('=' :: '>' :: (w ++ t)) = .tok (.link t []) ∧
      classifyNormal ('=' :: '>' :: (w ++ (t ++ (g ++ ti)))) = .tok (.link t ti)) ∧
    (∀ s ta ti : Str, strip s = s →
      classifyNormal s = .tok (.link ta ti) →
      ∃ w : Str, (∀ c ∈ w, pyWs c = true) ∧ ta ≠ [] ∧ (∀ c ∈ ta, pyWs c = false) ∧
        ((ti = [] ∧ s = '=' :: '>' :: (w ++ ta)) ∨
         (∃ g : Str, g ≠ [] ∧ (∀ c ∈ g, pyWs c = true) ∧
           (∃ e es, ti = e :: es ∧ pyWs e = false) ∧
           s = '=' :: '>' :: (w ++ (ta ++ (g ++ ti)))))) :=
  ⟨fun w t g ti hw ht0 ht hg0 hg hti => c6_forward w t g ti hw ht0 ht hg0 hg hti,
   fun s ta ti hstrip hcls => c6_converse s ta ti hstrip hcls⟩

/-- C6 amended witness: the forward direction at concrete lines with and
without separating whitespace, and the converse decomposition of the
concrete trimmed line of an arrow directly followed by a target. -/
theorem c6_witness :
    (classifyNormal ('=' :: '>' :: ([' '] ++ ['/', 'a'])) = .tok (.link ['/', 'a'] []) ∧
      classifyNormal ('=' :: '>' :: ([' '] ++ (['/', 'a'] ++ ([' '] ++ ['b', ' ', 'c']))))
        = .tok (.link ['/', 'a'] ['b', ' ', 'c'])) ∧
    (∃ w : Str, (∀ c ∈ w, pyWs c = true) ∧ ['x'] ≠ ([] : Str) ∧
      (∀ c ∈ (['x'] : Str), pyWs c = false) ∧
      ((([] : Str) = [] ∧ (['=', '>', 'x'] : Str) = '=' :: '>' :: (w ++ ['x'])) ∨
       (∃ g : Str, g ≠ [] ∧ (∀ c ∈ g, pyWs c = true) ∧
         (∃ e es, ([] : Str) = e :: es ∧ pyWs e = false) ∧
         (['=', '>', 'x'] : Str) = '=' :: '>' :: (w ++ (['x'] ++ (g ++ ([] : Str))))))) :=
  ⟨c6_link_classification.1 [' '] ['/', 'a'] [' '] ['b', ' ', 'c'] (by decide)
      (by decide) (by decide) (by decide) (by decide)
      ⟨'b', [' ', 'c'], rfl, by decide⟩,
   c6_link_classification.2 ['=', '>', 'x'] ['x'] [] (by decide) (by decide)⟩

/-- The number of open aggregators of a builder state. -/
def openCount (s : BState) : Nat :=
  (if s.links_node.isSome then 1 else 0) + (if s.list_node.isSome then 1 else 0)
    + (if s.quote_node.isSome then 1 else 0)

/-- After any single builder step at most one aggregator is open: the three
close checks clear every slot whose kind differs from the incoming token. -/
theorem openCount_buildStep (s : BState) (t : Tok) : openCount (buildStep s t) ≤ 1 := by
  obtain ⟨r, ln, li, qn⟩ := s
  cases t <;> cases ln <;> cases li <;> cases qn <;>
    simp [buildStep, closeLinks, closeList, closeQuote, addTok,
      isLinkTok, isElementTok, isQuoteTok, openCount]

theorem openCount_foldl (ts : List Tok) :
    ∀ s : BState, openCount s ≤ 1 → openCount (ts.foldl buildStep s) ≤ 1 := by
  induction ts with
  | nil => intro s h; exact h
  | cons t ts ih => intro s _; exact ih (buildStep s t) (openCount_buildStep s t)

/-- C7: at most one aggregator is open after any prefix of the token
stream; a token of a non-matching kind clears an open aggregator and
appends its node to the output; and an aggregator still open at
end-of-stream ends up in the final document, which is never truncated. -/
theorem c7_single_open_aggregator :
    (∀ ts : List Tok, openCount (buildState ts) ≤ 1) ∧
    (∀ (s : BState) (t : Tok) (l : List LinkEntry),
      s.links_node = some l → isLinkTok t = false →
      (buildStep s t).links_node = none ∧ Node.links l ∈ (buildStep s t).root) ∧
    (∀ (s : BState) (t : Tok) (l : List Str),
      s.list_node = some l → isElementTok t = false →
      (buildStep s t).list_node = none ∧ Node.list l ∈ (buildStep s t).root) ∧
    (∀ (s : BState) (t : Tok) (l : List Str),
      s.quote_node = some l → isQuoteTok t = false →
      (buildStep s t).quote_node = none ∧ Node.quote l ∈ (buildStep s t).root) ∧
    (∀ (ts : List Tok) (l : List LinkEntry),
      (buildState ts).links_node = some l → Node.links l ∈ build_ast ts) ∧
    (∀ (ts : List Tok) (l : List Str),
      (buildState ts).list_node = some l → Node.list l ∈ build_ast ts) ∧
    (∀ (ts : List Tok) (l : List Str),
      (buildState ts).quote_node = some l → Node.quote l ∈ build_ast ts) := by
  refine ⟨?_, ?_, ?_, ?_, ?_, ?_, ?_⟩
  · exact fun ts => openCount_foldl ts initState (by decide)
  · intro s t l h1 h2
    obtain ⟨r, ln, li, qn⟩ := s
    cases t <;> cases li <;> cases qn <;>
      simp_all [buildStep, closeLinks, closeList, closeQuote, addTok,
        isLinkTok, isElementTok, isQuoteTok]
  · intro s t l h1 h2
    obtain ⟨r, ln, li, qn⟩ := s
    cases t <;> cases ln <;> cases qn <;>
      simp_all [buildStep, closeLinks, closeList, closeQuote, addTok,
        isLinkTok, isElementTok, isQuoteTok]
  · intro s t l h1 h2
    obtain ⟨r, ln, li, qn⟩ := s
    cases t <;> cases ln <;> cases li <;>
      simp_all [buildStep, closeLinks, closeList, closeQuote, addTok,
        isLinkTok, isElementTok, isQuoteTok]
  · intro ts l h
    simp [build_ast, pendingNodes, h]
  · intro ts l h
    simp [build_ast, pendingNodes, h]
  · intro ts l h
    simp [build_ast, pendingNodes, h]

/-- C7 witness: a paragraph token closes an open links aggregator, the
state after two tokens of different aggregable kinds has one open
aggregator, and a trailing open list aggregator reaches the document. -/
theorem c7_witness :
    ((buildStep ⟨[], some [⟨['/', 'a'], []⟩], none, none⟩ (Tok.p ['x'])).links_node = none ∧
      Node.links [⟨['/', 'a'], []⟩]
        ∈ (buildStep ⟨[], some [⟨['/', 'a'], []⟩], none, none⟩ (Tok.p ['x'])).root) ∧
    openCount (buildState [Tok.link ['/', 'a'] [], Tok.element ['e']]) ≤ 1 ∧
    Node.list [['e']] ∈ build_ast [Tok.element ['e']] :=
  ⟨c7_single_open_aggregator.2.1 _ _ _ rfl rfl,
   c7_single_open_aggregator.1 _,
   c7_single_open_aggregator.2.2.2.2.2.1 [Tok.element ['e']] _ rfl⟩

/-- Inside a quote block every line up to the closing fence accumulates
verbatim (terminator included) onto the buffer of the one emitted quote
token. -/
theorem tokenizeAux_quote_block (interior : List Str) :
    ∀ buf : Str, (∀ l ∈ interior, startsWithTicks l = false) →
    ∀ (close : Str) (rest : List Str), startsWithTicks close = true →
      tokenizeAux (some buf) (interior ++ close :: rest)
        = (tokenizeAux none rest).map (fun ts => Tok.quote (buf ++ interior.flatten) :: ts) := by
  induction interior with
  | nil =>
    intro buf _ close rest hc
    simp [tokenizeAux, hc]
  | cons l ls ih =>
    intro buf h close rest hc
    have hl : startsWithTicks l = false := h l (List.mem_cons_self l ls)
    have step : tokenizeAux (some buf) ((l :: ls) ++ close :: rest)
        = tokenizeAux (some (buf ++ l)) (ls ++ close :: rest) := by
      show tokenizeAux (some buf) (l :: (ls ++ close :: rest)) = _
      simp [tokenizeAux, hl]
    rw [step, ih (buf ++ l) (fun x hx => h x (List.mem_cons_of_mem l hx)) close rest hc]
    simp [List.flatten_cons, List.append_assoc]

/-- C8: for a verbatim block the interior lines — leading and trailing
whitespace and terminators untouched — are reproduced unmodified in the
quote token and hence, concatenated in order, inside the rendered
preformatted block; the two fence lines are the only lines omitted. -/
theorem c8_verbatim_preserved (interior : List Str)
    (h : ∀ l ∈ interior, startsWithTicks l = false) :
    tokenize ("```\n".toList :: (interior ++ ["```\n".toList]))
      = .ok [Tok.quote interior.flatten] ∧
    gmi2html ("```\n".toList :: (interior ++ ["```\n".toList]))
      = .ok (htmlHead1 ++ fallbackTitle ++ htmlHead2 ++ htmlStyle
          ++ ("  <pre>\n".toList ++ (interior.flatten ++ "\n".toList) ++ "  </pre>\n".toList)
          ++ htmlFoot) := by
  have h1 : tokenize ("```\n".toList :: (interior ++ ["```\n".toList]))
      = .ok [Tok.quote interior.flatten] := by
    show tokenizeAux none _ = _
    have hop : tokenizeAux none ("```\n".toList :: (interior ++ ["```\n".toList]))
        = tokenizeAux (some []) (interior ++ ["```\n".toList]) := rfl
    rw [hop, tokenizeAux_quote_block interior [] h "```\n".toList [] (by decide)]
    rfl
  refine ⟨h1, ?_⟩
  show (tokenize _).map _ = _
  rw [h1]
  show Except.ok (write_html (build_ast [Tok.quote interior.flatten])) = _
  have hast : build_ast [Tok.quote interior.flatten]
      = [Node.quote [interior.flatten]] := rfl
  rw [hast]
  simp [write_html, pageTitle, isH1, bodyHtml, renderNode, lit, List.append_assoc]

/-- C8 witness: two interior lines with significant whitespace survive
byte-for-byte. -/
theorem c8_witness :
    tokenize ("```\n".toList :: (["  x \n".toList, "\ty\n".toList] ++ ["```\n".toList]))
      = .ok [Tok.quote (["  x \n".toList, "\ty\n".toList].flatten)] :=
  (c8_verbatim_preserved ["  x \n".toList, "\ty\n".toList] (by decide)).1

/-- A stripped line starting with three backticks is classified as the mode
switch into the quote state: its backtick first character defeats the
header, element and link patterns. -/
theorem classifyNormal_ticks (s : Str) (h : startsWithTicks s = true) :
    classifyNormal s = .openQuote := by
  match s, h with
  | c1 :: c2 :: c3 :: r, h =>
    simp only [startsWithTicks, Bool.and_eq_true, decide_eq_true_eq] at h
    obtain ⟨⟨h1, h2⟩, h3⟩ := h
    subst h1; subst h2; subst h3
    rfl

/-- C9: a fence-opening line contributes only the mode switch — the
continuation of the tokenizer does not depend on the text after the
backticks, so a language tag is discarded from every token and node — and
concretely a tagged opening fence converts identically to a bare one. -/
theorem c9_fence_extra_text_discarded :
    (∀ (line : Str) (rest : List Str), startsWithTicks (strip line) = true →
      tokenizeAux none (line :: rest) = tokenizeAux (some []) rest) ∧
    gmi2html ["```python\n".toList, "x\n".toList, "```\n".toList]
      = gmi2html ["```\n".toList, "x\n".toList, "```\n".toList] := by
  constructor
  · intro line rest h
    simp only [tokenizeAux, classifyNormal_ticks (strip line) h]
  · rfl

/-- C9 witness: a rust-tagged fence line opens a quote with an empty
buffer and emits nothing. -/
theorem c9_witness :
    tokenizeAux none ["```rust\n".toList, "a\n".toList, "```\n".toList]
      = tokenizeAux (some []) ["a\n".toList, "```\n".toList] :=
  c9_fence_extra_text_discarded.1 "```rust\n".toList ["a\n".toList, "```\n".toList]
    (by decide)

/-- A header line of number signs, one space and a title whose last
character is not whitespace is its own stripped form. -/
theorem strip_header_line (n : Nat) (title : Str) (hn : 1 ≤ n)
    (hlast : ∃ d ds, title.reverse = d :: ds ∧ pyWs d = false) :
    strip (List.replicate n '#' ++ ' ' :: title)
      = List.replicate n '#' ++ ' ' :: title := by
  obtain ⟨d, ds, hrev, hd⟩ := hlast
  obtain ⟨m, rfl⟩ : ∃ m, n = m + 1 := ⟨n - 1, by omega⟩
  have h1 : (List.replicate (m + 1) '#' ++ ' ' :: title).dropWhile pyWs
      = List.replicate (m + 1) '#' ++ ' ' :: title := by
    rw [List.replicate_succ, List.cons_append]
    exact dropWhile_cons_neg pyWs '#' _ (by decide)
  have h2 : ((List.replicate (m + 1) '#' ++ ' ' :: title).reverse).dropWhile pyWs
      = (List.replicate (m + 1) '#' ++ ' ' :: title).reverse := by
    rw [List.reverse_append, List.reverse_cons, hrev]
    simp only [List.cons_append, List.append_assoc]
    exact dropWhile_cons_neg pyWs d _ hd
  rw [strip, h1, h2, List.reverse_reverse]

/-- header_regex on a well-formed header line: the level is the full count
of leading number signs, with no upper bound. -/
theorem headerMatch_header_line (n : Nat) (title : Str) (hn : 1 ≤ n)
    (hhead : ∃ c cs, title = c :: cs ∧ pyWs c = false) :
    headerMatch (List.replicate n '#' ++ ' ' :: title) = some (n, title) := by
  obtain ⟨c, cs, rfl, hc⟩ := hhead
  have htake : (List.replicate n '#' ++ ' ' :: (c :: cs)).takeWhile (fun x => x = '#')
      = List.replicate n '#' :=
    takeWhile_append_stop _ _ ' ' _
      (fun x hx => by rw [List.eq_of_mem_replicate hx]; decide) (by decide)
  have hdrop : (List.replicate n '#' ++ ' ' :: (c :: cs)).drop n = ' ' :: (c :: cs) := by
    have hdl := List.drop_left (List.replicate n '#') (' ' :: (c :: cs))
    rwa [List.length_replicate] at hdl
  simp only [headerMatch, htake, List.length_replicate, hdrop]
  rw [if_neg (by omega)]
  simp [dropWhile_cons_neg pyWs c cs hc, pyWs]

/-- C10: a header token's level is the full count of leading number signs
(any count at least 1, unclamped), the renderer emits the heading tag for
that very level, and a line with seven number signs produces the literal
h7 tag in the final document. -/
theorem c10_header_level_unbounded (n : Nat) (title : Str)
    (hn : 1 ≤ n)
    (hhead : ∃ c cs, title = c :: cs ∧ pyWs c = false)
    (hlast : ∃ d ds, title.reverse = d :: ds ∧ pyWs d = false) :
    tokenize [List.replicate n '#' ++ ' ' :: title] = .ok [Tok.header n title] ∧
    (∀ (m : Nat) (ti : Str), renderNode (Node.header m ti)
      = lit "  <h" ++ natStr m ++ lit ">" ++ ti ++ lit "</h" ++ natStr m ++ lit ">\n") ∧
    gmi2html ["####### Seven".toList]
      = .ok (htmlHead1 ++ fallbackTitle ++ htmlHead2 ++ htmlStyle
          ++ "  <h7>Seven</h7>\n".toList ++ htmlFoot) := by
  refine ⟨?_, fun _ _ => rfl, rfl⟩
  have hs := strip_header_line n title hn hlast
  have hm := headerMatch_header_line n title hn hhead
  simp [tokenize, tokenizeAux, classifyNormal, hs, hm, Except.map]

/-- C10 witness: seven number signs give a level-7 header token. -/
theorem c10_witness :
    tokenize [List.replicate 7 '#' ++ ' ' :: "Seven".toList]
      = .ok [Tok.header 7 "Seven".toList] :=
  (c10_header_level_unbounded 7 "Seven".toList (by decide)
    ⟨'S', "even".toList, rfl, by decide⟩
    ⟨'n', "eveS".toList, by decide, by decide⟩).1

end Gmi2html
